import Mathlib

/-!
Verification of NeoVintageous against its natural-language specification.

Part 1 embeds `src/lib/ex/parser/scanner_command_set.py`: the `TokenSet`
command token and the `scan_command_set` scanner, whose core is the Python
regular expression

  (?P<option>.+?)(?:[:=](?P<value>.+?))?$

matched (anchored) at the scanner position after skipping leading spaces.
Part 2 embeds `src/plugin.py`: `_update_ignored_packages`, `_cleanup_views`,
`plugin_loaded` and `plugin_unloaded`, with the host editor API (settings
store, views, dialogs) made explicit as state, and the exception behaviour
of each host call supplied by an oracle.
-/

set_option autoImplicit false

namespace NeoVintageous

/-! ### The regex engine for the `:set` scanner pattern

The pattern is fixed, so we embed the backtracking behaviour of Python `re`
on exactly this pattern, over the characters of the scanned text:
`.` matches any character except a newline, `.+?` is lazy (shortest first),
the group `(?:[:=](?P<value>.+?))?` is greedy (tried before being skipped),
and `$` matches at the end of the text or just before a single trailing
newline. -/

/-- The `$` anchor of Python `re` (without `re.MULTILINE`): matches at the end of the
text, or just before a trailing newline that is the final character. -/
def atEol : List Char → Bool
  | [] => true
  | [c] => c = '\n'
  | _ => false

/-- A separator character of the pattern's character class `[:=]`. -/
def isSepChar (c : Char) : Bool := c = ':' || c = '='

/-- The lazy submatch `(?P<value>.+?)$`: the shortest non-empty run of
non-newline characters after which `$` matches; `none` when no such run
exists (the branch fails and the engine backtracks). -/
def findValue : List Char → Option (List Char)
  | [] => none
  | c :: rest =>
    if c = '\n' then none
    else if atEol rest then some [c]
    else (findValue rest).map (fun v => c :: v)

/-- Backtracking continuation after the lazy `option` group has already
consumed `acc` (in reverse): first try to extend the match with
`[:=](?P<value>.+?)$` (the optional group is greedy), otherwise try `$`
directly (the optional group matches empty), otherwise let `option`
consume one more non-newline character. -/
def setMatchAux : List Char → List Char → Option (List Char × Option (List Char))
  | acc, [] => some (acc.reverse, none)
  | acc, c :: rest =>
    if isSepChar c then
      match findValue rest with
      | some v => some (acc.reverse, some v)
      | none => setMatchAux (c :: acc) rest
    else if c = '\n' then
      if rest = [] then some (acc.reverse, none) else none
    else setMatchAux (c :: acc) rest

/-- Matching `(?P<option>.+?)(?:[:=](?P<value>.+?))?$` against a text:
`option` must consume at least one (non-newline) character before the
optional group is tried. Returns the `option` group and the `value` group
(`none` when the optional group matched empty), or `none` when the whole
pattern fails to match. -/
def setMatch : List Char → Option (List Char × Option (List Char))
  | [] => none
  | c :: rest => if c = '\n' then none else setMatchAux [c] rest

/-! ### Scanner state and the token data model

Modelled from the spec: the scanner state class and the token base classes
(`ScannerState.skip`/`ignore`/`expect_match`, `TokenOfCommand`, `TokenEof`,
`TOKEN_COMMAND_SET`) live in parser modules that are not under `src/`; the
spec describes per-command scanners converting a raw command-line substring
into a typed token of an identifier, string-keyed parsed parameters and a
reference to the editor command to invoke. We model the scanner state as
the remaining text, `skip` as dropping the leading run of a character, and
`expect_match` as anchored matching that fails (raises) when the pattern
does not match. -/

/-- Python `state.skip(c)`: consume the leading run of the character `c`. -/
def skipChar (c : Char) : List Char → List Char
  | [] => []
  | x :: rest => if x = c then skipChar c rest else x :: rest

/-- A parameter value: a string, or the `None` sentinel. -/
abbrev PValue := Option (List Char)

/-- The string-keyed parameter dictionary of a command token. -/
abbrev Params := List (String × PValue)

/-- Python `d[k] = v` on a dictionary: replace the binding of `k` when present,
append it otherwise. -/
def setKey : Params → String → PValue → Params
  | [], k, v => [(k, v)]
  | (k', v') :: rest, k, v =>
    if k' = k then (k, v) :: rest else (k', v') :: setKey rest k v

/-- Python `params.update(d)`: assign every binding of `d` into `params`. -/
def updateParams (p : Params) (d : Params) : Params :=
  d.foldl (fun acc kv => setKey acc kv.1 kv.2) p

/-- The initial `params` dictionary of `scan_command_set`: both required
keys present, defaulted to the `None` sentinel. -/
def initSetParams : Params := [("option", none), ("value", none)]

/-- Python `m.groupdict()` for the pattern's two named groups: `option` always
matched a string, `value` is `None` when the optional group matched empty. -/
def groupdictSet (o : List Char) (v : Option (List Char)) : Params :=
  [("option", some o), ("value", v)]

/-- The `TokenSet` command token: its parsed parameters, the command
identifier (`content`, set to `'set'` by `__init__`), and the editor
command it invokes (`target_command`, set to `'ex_set'`). -/
structure TokenSet where
  params : Params
  content : String
  target_command : String
deriving DecidableEq

/-- Python `TokenSet(params)`: the constructor fixes the identifier `'set'` and
the target command `'ex_set'`. -/
def TokenSet.make (p : Params) : TokenSet := ⟨p, "set", "ex_set"⟩

/-- The `value` property: `self.params['value']` (outer `Option` is key
presence, a missing key would raise `KeyError`). -/
def TokenSet.value (t : TokenSet) : Option PValue := t.params.lookup "value"

/-- The `option` property: `self.params['option']`. -/
def TokenSet.option (t : TokenSet) : Option PValue := t.params.lookup "option"

/-- A token of the scanned stream: a `TokenSet` or the `TokenEof` marker. -/
inductive Token where
  | set (t : TokenSet)
  | eof
deriving DecidableEq

/-- Python `scan_command_set(state)`: skip leading spaces, ignore the skipped run,
then `expect_match` the pattern (failure of the match means the scanner
raises, modelled as `none`); on success return the pair
`(None, [TokenSet(params), TokenEof()])` with `params` updated from the
match's `groupdict`. -/
def scan_command_set (s : List Char) : Option (Option Unit × List Token) :=
  let text := skipChar ' ' s
  match setMatch text with
  | none => none
  | some (o, v) =>
    let params := updateParams initSetParams (groupdictSet o v)
    some (none, [Token.set (TokenSet.make params), Token.eof])

/-! ### The plugin bootstrap (`src/plugin.py`)

The host editor API is made explicit: the `Preferences.sublime-settings`
store is its `ignored_packages` list plus a count of `save_settings` calls,
a view's settings are a key-value map, and dialogs and printed tracebacks
are accumulated in a world state. Each host call that might raise is given
its outcome by a `Host` oracle, so the `try`/`except` structure of the
source is transcribed branch by branch. `init_state` is not under `src/`;
modelled from the spec, view-state initialization is an opaque effect on
the active view that may raise. -/

/-- A Python exception, distinguished only up to the `isinstance` test
`plugin_loaded` performs: an `ImportError`, or any other `Exception`. -/
inductive PyExc where
  | importError
  | otherError
deriving DecidableEq

/-- A value stored under a key of a view's settings. -/
inductive SVal where
  | bool (b : Bool)
  | str (s : String)
  | other
deriving DecidableEq

/-- The settings of a view: a partial map from setting names to values. -/
abbrev ViewSettings := String → Option SVal

/-- Python `view.settings().set(key, val)`. -/
def setSetting (v : ViewSettings) (key : String) (val : SVal) : ViewSettings :=
  fun k => if k = key then some val else v k

/-- Python `view.settings().erase(key)`. -/
def eraseSetting (v : ViewSettings) (key : String) : ViewSettings :=
  fun k => if k = key then none else v k

/-- The observable editor state the bootstrap touches: the active view's
settings (`none` when the active sheet is not a view), the settings of the
other open views, the `ignored_packages` preference, how often the
preferences file was saved, the modal dialogs shown, and how many
tracebacks were printed by `except` handlers. -/
structure World where
  active : Option ViewSettings
  others : List ViewSettings
  ignored_packages : List String
  savedCount : Nat
  dialogs : List String
  tracebacks : Nat

/-- Python `traceback.print_exc()` inside an `except` handler. -/
def addTraceback (w : World) : World := { w with tracebacks := w.tracebacks + 1 }

/-- The outcome oracle for every host call of the bootstrap that can
raise: the module-level import block, `from package_control import events`,
`events.install`/`events.post_upgrade`, `_update_ignored_packages`,
`init_state` (with its opaque effect on the active view, modelled from the
spec), and `_cleanup_views`. -/
structure Host where
  importExc : Option PyExc
  pcImportExc : Option PyExc
  installResult : Except PyExc Bool
  postUpgradeResult : Except PyExc Bool
  updateExc : Option PyExc
  initStateExc : Option PyExc
  initStateEffect : ViewSettings → ViewSettings
  cleanupExc : Option PyExc

/-- The module-level `try`: run the imports; on failure record the
exception in `_EXCEPTION` and print a traceback. Never propagates. -/
def module_load (h : Host) (w : World) : Except PyExc (Option PyExc × World) :=
  match h.importExc with
  | some e => Except.ok (some e, addTraceback w)
  | none => Except.ok (none, w)

/-- Python `conflict_packages`: the packages among `Six`, `Vintage`, `Vintageous`
that are not already ignored. -/
def conflict_packages_of (ignored : List String) : List String :=
  ["Six", "Vintage", "Vintageous"].filter (fun x => !decide (x ∈ ignored))

/-- What `_update_ignored_packages` did to the preferences store. -/
structure UpdateOutcome where
  ignored_packages : List String
  set_called : Bool
  saved : Bool
deriving DecidableEq

/-- Python `_update_ignored_packages`: read `ignored_packages`, and only when some
conflict package is missing, store the sorted union and save the settings
file (Python `sorted` on strings; any sort of a linear order agrees). -/
def update_ignored_packages (ignored : List String) : UpdateOutcome :=
  let conflict := conflict_packages_of ignored
  if conflict = [] then ⟨ignored, false, false⟩
  else ⟨List.insertionSort (fun a b => a ≤ b) (ignored ++ conflict), true, true⟩

/-- The per-view body of `_cleanup_views`: set `command_mode` and
`inverse_caret_state` to `False` and erase `vintage`. -/
def cleanup_view (v : ViewSettings) : ViewSettings :=
  eraseSetting
    (setSetting (setSetting v "command_mode" (SVal.bool false))
      "inverse_caret_state" (SVal.bool false))
    "vintage"

/-- Python `_cleanup_views`: reset every view of every window. -/
def cleanup_views (w : World) : World :=
  { w with active := w.active.map cleanup_view, others := w.others.map cleanup_view }

/-- The body of the Package Control `try` block, before its handlers:
`pc_event` starts as `None`, `events.install` may set it to `'install'`,
`events.post_upgrade` may overwrite it with `'post_upgrade'`; an error
carries the exception together with the value `pc_event` had when the
exception was raised (assignments before the raise persist). -/
def pcBlockRaw (h : Host) : Except (PyExc × Option String) (Option String) :=
  match h.pcImportExc with
  | some e => Except.error (e, none)
  | none =>
    match h.installResult with
    | Except.error e => Except.error (e, none)
    | Except.ok i =>
      let ev := if i then some "install" else none
      match h.postUpgradeResult with
      | Except.error e => Except.error (e, ev)
      | Except.ok p => (if p then Except.ok (some "post_upgrade") else Except.ok ev)

/-- The Package Control block with its handlers: `except ImportError: pass`,
`except Exception:` print a traceback; either way execution continues with
the current `pc_event`. -/
def pcStep (h : Host) (w : World) : Option String × World :=
  match pcBlockRaw h with
  | Except.ok ev => (ev, w)
  | Except.error (PyExc.importError, ev) => (ev, w)
  | Except.error (_, ev) => (ev, addTraceback w)

/-- The `_update_ignored_packages()` `try` block: on success apply the
update to the preferences store, on any exception print a traceback. -/
def updateStep (h : Host) (w : World) : World :=
  match h.updateExc with
  | some _ => addTraceback w
  | none =>
    let r := update_ignored_packages w.ignored_packages
    { w with
      ignored_packages := r.ignored_packages,
      savedCount := w.savedCount + (if r.saved then 1 else 0) }

/-- The view-state initialization `try` block: `_exception = None`; when
there is an active view, run `init_state` on it; on an exception record it
in `_exception` and print a traceback. -/
def initStep (h : Host) (w : World) : Option PyExc × World :=
  match w.active with
  | none => (none, w)
  | some v =>
    match h.initStateExc with
    | some e => (some e, addTraceback w)
    | none => (none, { w with active := some (h.initStateEffect v) })

/-- The dialog message: chosen by `isinstance(_, ImportError)` on the
recorded exceptions and by whether `pc_event == 'post_upgrade'`. -/
def restartMessage (isImport : Bool) (postUpgrade : Bool) : String :=
  if isImport then
    if postUpgrade then
      "Failed to load some modules trying to upgrade NeoVintageous. Please restart Sublime Text to finish the upgrade."
    else
      "Failed to load some NeoVintageous modules. Please restart Sublime Text."
  else
    if postUpgrade then
      "An error occurred trying to upgrade NeoVintageous. Please restart Sublime Text to finish the upgrade."
    else
      "An error occurred trying to load NeoVintageous. Please restart Sublime Text."

/-- The error branch of `plugin_loaded`: `_cleanup_views()` in its own
`try` (a traceback on failure), then print and show the chosen message. -/
def errorStep (h : Host) (exc excInit : Option PyExc) (pc_event : Option String)
    (w : World) : World :=
  let w1 :=
    match h.cleanupExc with
    | some _ => addTraceback w
    | none => cleanup_views w
  let message :=
    restartMessage
      (decide (exc = some PyExc.importError) || decide (excInit = some PyExc.importError))
      (decide (pc_event = some "post_upgrade"))
  { w1 with dialogs := w1.dialogs ++ [message] }

/-- Python `plugin_loaded()`, given the `_EXCEPTION` recorded at import time: the
Package Control block, the ignored-packages block, the view-init block,
then — exactly when `_EXCEPTION or _exception` is truthy — the cleanup and
dialog. The codomain is `Except` so that an uncaught exception would be an
`Except.error` result. -/
def plugin_loaded (h : Host) (exc : Option PyExc) (w : World) : Except PyExc World :=
  let s1 := pcStep h w
  let w2 := updateStep h s1.2
  let s3 := initStep h w2
  if exc.isSome || s3.1.isSome then Except.ok (errorStep h exc s3.1 s1.1 s3.2)
  else Except.ok s3.2

/-- Python `plugin_unloaded()`: `_cleanup_views()` wrapped in `try`/`except`. -/
def plugin_unloaded (h : Host) (w : World) : Except PyExc World :=
  match h.cleanupExc with
  | some _ => Except.ok (addTraceback w)
  | none => Except.ok (cleanup_views w)

/-- The message property every dialog branch is claimed to have: the text
`Please restart Sublime Text` occurs in the message. -/
def containsRestart (m : String) : Prop :=
  ∃ pre post, m = pre ++ "Please restart Sublime Text" ++ post

/-! ### Lemmas about the `:set` pattern match -/

theorem atEol_eq_false_of_no_newline (r : List Char) (hne : r ≠ [])
    (hc : ∀ c ∈ r, c ≠ '\n') : atEol r = false := by
  match r with
  | [] => exact absurd rfl hne
  | [c] =>
    simp only [atEol, decide_eq_false_iff_not]
    exact hc c (List.mem_singleton.mpr rfl)
  | c :: d :: t => rfl

theorem findValue_of_no_newline (v : List Char) (hne : v ≠ [])
    (hc : ∀ c ∈ v, c ≠ '\n') : findValue v = some v := by
  induction v with
  | nil => exact absurd rfl hne
  | cons c rest ih =>
    have hcnl : c ≠ '\n' := hc c (List.mem_cons_self c rest)
    by_cases hr : rest = []
    · subst hr
      simp [findValue, hcnl, atEol]
    · have hrest : ∀ x ∈ rest, x ≠ '\n' := fun x hx => hc x (List.mem_cons_of_mem c hx)
      simp [findValue, hcnl, atEol_eq_false_of_no_newline rest hr hrest, ih hr hrest]

theorem setMatchAux_sep (sep : Char) (hsep : isSepChar sep = true)
    (val : List Char) (hval : findValue val = some val) (opt : List Char) :
    ∀ acc : List Char, (∀ c ∈ opt, isSepChar c = false ∧ c ≠ '\n') →
      setMatchAux acc (opt ++ sep :: val) = some (acc.reverse ++ opt, some val) := by
  induction opt with
  | nil =>
    intro acc _
    simp [setMatchAux, hsep, hval]
  | cons c opt' ih =>
    intro acc h
    obtain ⟨h1, h2⟩ := h c (List.mem_cons_self c opt')
    have h' : ∀ x ∈ opt', isSepChar x = false ∧ x ≠ '\n' :=
      fun x hx => h x (List.mem_cons_of_mem c hx)
    have step : setMatchAux acc ((c :: opt') ++ sep :: val)
        = setMatchAux (c :: acc) (opt' ++ sep :: val) := by
      simp [setMatchAux, h1, h2]
    rw [step, ih (c :: acc) h']
    simp

theorem setMatch_sep (opt val : List Char) (sep : Char)
    (hsep : isSepChar sep = true) (hopt : opt ≠ [])
    (hoptc : ∀ c ∈ opt, isSepChar c = false ∧ c ≠ '\n')
    (hval : findValue val = some val) :
    setMatch (opt ++ sep :: val) = some (opt, some val) := by
  match opt, hopt with
  | c :: opt', _ =>
    have h2 : c ≠ '\n' := (hoptc c (List.mem_cons_self c opt')).2
    have h' : ∀ x ∈ opt', isSepChar x = false ∧ x ≠ '\n' :=
      fun x hx => hoptc x (List.mem_cons_of_mem c hx)
    have : setMatch ((c :: opt') ++ sep :: val) = setMatchAux [c] (opt' ++ sep :: val) := by
      simp [setMatch, h2]
    rw [this, setMatchAux_sep sep hsep val hval opt' [c] h']
    simp

theorem setMatchAux_clean (r : List Char) :
    ∀ acc : List Char, (∀ c ∈ r, isSepChar c = false ∧ c ≠ '\n') →
      setMatchAux acc r = some (acc.reverse ++ r, none) := by
  induction r with
  | nil => intro acc _; simp [setMatchAux]
  | cons c rest ih =>
    intro acc h
    obtain ⟨h1, h2⟩ := h c (List.mem_cons_self c rest)
    have h' : ∀ x ∈ rest, isSepChar x = false ∧ x ≠ '\n' :=
      fun x hx => h x (List.mem_cons_of_mem c hx)
    have step : setMatchAux acc (c :: rest) = setMatchAux (c :: acc) rest := by
      simp [setMatchAux, h1, h2]
    rw [step, ih (c :: acc) h']
    simp

theorem setMatch_clean (r : List Char) (hne : r ≠ [])
    (hc : ∀ c ∈ r, isSepChar c = false ∧ c ≠ '\n') :
    setMatch r = some (r, none) := by
  match r, hne with
  | c :: rest, _ =>
    have h2 : c ≠ '\n' := (hc c (List.mem_cons_self c rest)).2
    have h' : ∀ x ∈ rest, isSepChar x = false ∧ x ≠ '\n' :=
      fun x hx => hc x (List.mem_cons_of_mem c hx)
    have : setMatch (c :: rest) = setMatchAux [c] rest := by simp [setMatch, h2]
    rw [this, setMatchAux_clean rest [c] h']
    simp

theorem setMatchAux_trailing_sep (sep : Char) (hsep : isSepChar sep = true)
    (opt : List Char) :
    ∀ acc : List Char, (∀ c ∈ opt, isSepChar c = false ∧ c ≠ '\n') →
      setMatchAux acc (opt ++ [sep]) = some (acc.reverse ++ opt ++ [sep], none) := by
  induction opt with
  | nil =>
    intro acc _
    have hnl : sep ≠ '\n' := by
      intro hs
      rw [hs] at hsep
      simp [isSepChar] at hsep
    simp [setMatchAux, hsep, findValue]
  | cons c opt' ih =>
    intro acc h
    obtain ⟨h1, h2⟩ := h c (List.mem_cons_self c opt')
    have h' : ∀ x ∈ opt', isSepChar x = false ∧ x ≠ '\n' :=
      fun x hx => h x (List.mem_cons_of_mem c hx)
    have step : setMatchAux acc ((c :: opt') ++ [sep])
        = setMatchAux (c :: acc) (opt' ++ [sep]) := by
      simp [setMatchAux, h1, h2]
    rw [step, ih (c :: acc) h']
    simp

theorem setMatch_trailing_sep (opt : List Char) (sep : Char)
    (hsep : isSepChar sep = true)
    (hoptc : ∀ c ∈ opt, isSepChar c = false ∧ c ≠ '\n') :
    setMatch (opt ++ [sep]) = some (opt ++ [sep], none) := by
  have hnl : sep ≠ '\n' := by
    intro hs
    rw [hs] at hsep
    simp [isSepChar] at hsep
  match opt with
  | [] =>
    have : setMatch ([] ++ [sep]) = setMatchAux [sep] [] := by simp [setMatch, hnl]
    rw [this]
    simp [setMatchAux]
  | c :: opt' =>
    have h2 : c ≠ '\n' := (hoptc c (List.mem_cons_self c opt')).2
    have h' : ∀ x ∈ opt', isSepChar x = false ∧ x ≠ '\n' :=
      fun x hx => hoptc x (List.mem_cons_of_mem c hx)
    have : setMatch ((c :: opt') ++ [sep]) = setMatchAux [c] (opt' ++ [sep]) := by
      simp [setMatch, h2]
    rw [this, setMatchAux_trailing_sep sep hsep opt' [c] h']
    simp

theorem setMatchAux_opt_extends (r : List Char) :
    ∀ (acc o : List Char) (v : Option (List Char)),
      setMatchAux acc r = some (o, v) → ∃ t, o = acc.reverse ++ t := by
  induction r with
  | nil =>
    intro acc o v h
    simp only [setMatchAux, Option.some.injEq, Prod.mk.injEq] at h
    exact ⟨[], by simp [h.1.symm]⟩
  | cons c rest ih =>
    intro acc o v h
    simp only [setMatchAux] at h
    by_cases h1 : isSepChar c
    · rw [if_pos h1] at h
      cases hf : findValue rest with
      | some w =>
        rw [hf] at h
        simp only [Option.some.injEq, Prod.mk.injEq] at h
        exact ⟨[], by simp [h.1.symm]⟩
      | none =>
        rw [hf] at h
        obtain ⟨t, ht⟩ := ih (c :: acc) o v h
        exact ⟨c :: t, by simp [ht]⟩
    · rw [if_neg h1] at h
      by_cases h2 : c = '\n'
      · rw [if_pos h2] at h
        by_cases h3 : rest = []
        · rw [if_pos h3] at h
          simp only [Option.some.injEq, Prod.mk.injEq] at h
          exact ⟨[], by simp [h.1.symm]⟩
        · rw [if_neg h3] at h
          exact absurd h (by simp)
      · rw [if_neg h2] at h
        obtain ⟨t, ht⟩ := ih (c :: acc) o v h
        exact ⟨c :: t, by simp [ht]⟩

theorem setMatch_opt_ne_nil (r o : List Char) (v : Option (List Char))
    (h : setMatch r = some (o, v)) : o ≠ [] := by
  match r with
  | [] => exact absurd h (by simp [setMatch])
  | c :: rest =>
    simp only [setMatch] at h
    by_cases h2 : c = '\n'
    · rw [if_pos h2] at h
      exact absurd h (by simp)
    · rw [if_neg h2] at h
      obtain ⟨t, ht⟩ := setMatchAux_opt_extends rest [c] o v h
      simp [ht]

theorem setMatchAux_value_none (r : List Char) :
    ∀ (acc o : List Char) (v : Option (List Char)),
      (∀ c ∈ r, isSepChar c = false) → setMatchAux acc r = some (o, v) → v = none := by
  induction r with
  | nil =>
    intro acc o v _ h
    simp only [setMatchAux, Option.some.injEq, Prod.mk.injEq] at h
    exact h.2.symm
  | cons c rest ih =>
    intro acc o v hc h
    have h1 : isSepChar c = false := hc c (List.mem_cons_self c rest)
    have h' : ∀ x ∈ rest, isSepChar x = false :=
      fun x hx => hc x (List.mem_cons_of_mem c hx)
    simp only [setMatchAux, h1, Bool.false_eq_true, if_false] at h
    by_cases h2 : c = '\n'
    · rw [if_pos h2] at h
      by_cases h3 : rest = []
      · rw [if_pos h3] at h
        simp only [Option.some.injEq, Prod.mk.injEq] at h
        exact h.2.symm
      · rw [if_neg h3] at h
        exact absurd h (by simp)
    · rw [if_neg h2] at h
      exact ih (c :: acc) o v h' h

theorem setMatch_value_none (r o : List Char) (v : Option (List Char))
    (hc : ∀ c ∈ r, isSepChar c = false) (h : setMatch r = some (o, v)) : v = none := by
  match r with
  | [] => exact absurd h (by simp [setMatch])
  | c :: rest =>
    simp only [setMatch] at h
    by_cases h2 : c = '\n'
    · rw [if_pos h2] at h
      exact absurd h (by simp)
    · rw [if_neg h2] at h
      exact setMatchAux_value_none rest [c] o v
        (fun x hx => hc x (List.mem_cons_of_mem c hx)) h

/-! ### Lemmas about `scan_command_set` itself -/

theorem scanParams_eq (o : List Char) (v : PValue) :
    updateParams initSetParams (groupdictSet o v) = [("option", some o), ("value", v)] := rfl

theorem scan_command_set_of_match (s o : List Char) (v : PValue)
    (h : setMatch (skipChar ' ' s) = some (o, v)) :
    scan_command_set s
      = some (none, [Token.set (TokenSet.make [("option", some o), ("value", v)]),
          Token.eof]) := by
  simp only [scan_command_set, h, scanParams_eq]

theorem scan_command_set_inv (s : List Char) (r : Option Unit × List Token)
    (h : scan_command_set s = some r) :
    ∃ o v, setMatch (skipChar ' ' s) = some (o, v)
      ∧ r = (none, [Token.set (TokenSet.make [("option", some o), ("value", v)]),
          Token.eof]) := by
  simp only [scan_command_set] at h
  cases hm : setMatch (skipChar ' ' s) with
  | none => rw [hm] at h; exact absurd h (by simp)
  | some p =>
    rw [hm] at h
    obtain ⟨o, v⟩ := p
    simp only [scanParams_eq, Option.some.injEq] at h
    exact ⟨o, v, rfl, h.symm⟩

theorem isSepChar_false_of (c : Char) (h1 : c ≠ ':') (h2 : c ≠ '=') :
    isSepChar c = false := by
  simp [isSepChar, h1, h2]

theorem isSepChar_true_of (sep : Char) (h : sep = ':' ∨ sep = '=') :
    isSepChar sep = true := by
  rcases h with h | h <;> simp [isSepChar, h]

/-! ### The claims about `scan_command_set` -/

/-- C1: for a `:set` argument of the form `opt SEP val` (SEP one of `=`
or `:`, `opt` non-empty and free of separators, `val` non-empty),
`scan_command_set`, after skipping leading spaces, yields a `TokenSet`
whose option is `opt` and whose value is `val`, splitting at the first
separator; a non-empty argument with no separator yields the whole
argument as option and the `None` sentinel as value. (Arguments are
line-oriented, so they contain no newline.) -/
theorem scan_command_set_splits_at_first_sep :
    (∀ (s opt val : List Char) (sep : Char),
      (sep = ':' ∨ sep = '=') →
      opt ≠ [] →
      (∀ c ∈ opt, c ≠ ':' ∧ c ≠ '=' ∧ c ≠ '\n') →
      val ≠ [] →
      (∀ c ∈ val, c ≠ '\n') →
      skipChar ' ' s = opt ++ sep :: val →
      ∃ t, scan_command_set s = some (none, [Token.set t, Token.eof])
        ∧ t.option = some (some opt) ∧ t.value = some (some val))
    ∧
    (∀ s : List Char,
      skipChar ' ' s ≠ [] →
      (∀ c ∈ skipChar ' ' s, c ≠ ':' ∧ c ≠ '=' ∧ c ≠ '\n') →
      ∃ t, scan_command_set s = some (none, [Token.set t, Token.eof])
        ∧ t.option = some (some (skipChar ' ' s)) ∧ t.value = some none) := by
  constructor
  · intro s opt val sep hsep hopt hoptc hval hvalc hs
    have hoptc' : ∀ c ∈ opt, isSepChar c = false ∧ c ≠ '\n' := fun c hc =>
      ⟨isSepChar_false_of c (hoptc c hc).1 (hoptc c hc).2.1, (hoptc c hc).2.2⟩
    have hm : setMatch (skipChar ' ' s) = some (opt, some val) := by
      rw [hs]
      exact setMatch_sep opt val sep (isSepChar_true_of sep hsep) hopt hoptc'
        (findValue_of_no_newline val hval hvalc)
    refine ⟨TokenSet.make [("option", some opt), ("value", some val)],
      scan_command_set_of_match s opt (some val) hm, rfl, rfl⟩
  · intro s hne hc
    have hc' : ∀ c ∈ skipChar ' ' s, isSepChar c = false ∧ c ≠ '\n' := fun c h =>
      ⟨isSepChar_false_of c (hc c h).1 (hc c h).2.1, (hc c h).2.2⟩
    have hm : setMatch (skipChar ' ' s) = some (skipChar ' ' s, none) :=
      setMatch_clean (skipChar ' ' s) hne hc'
    exact ⟨TokenSet.make [("option", some (skipChar ' ' s)), ("value", none)],
      scan_command_set_of_match s (skipChar ' ' s) none hm, rfl, rfl⟩

/-- Witness for C1, on `:set wrap=b=c` and `:set nu`. -/
theorem scan_command_set_splits_at_first_sep_witness :
    (∃ t, scan_command_set " wrap=b=c".data = some (none, [Token.set t, Token.eof])
      ∧ t.option = some (some "wrap".data) ∧ t.value = some (some "b=c".data))
    ∧ (∃ t, scan_command_set " nu".data = some (none, [Token.set t, Token.eof])
      ∧ t.option = some (some "nu".data) ∧ t.value = some none) := by
  constructor
  · have h := scan_command_set_splits_at_first_sep.1 " wrap=b=c".data "wrap".data
      "b=c".data '=' (Or.inr rfl) (by decide) (by decide) (by decide) (by decide)
      (by decide)
    exact h
  · have h := scan_command_set_splits_at_first_sep.2 " nu".data (by decide) (by decide)
    simpa using h

/-- C4: every token produced by `scan_command_set` has both required
parameter keys `option` and `value` present in `params`, and when the
input provides no `=`- or `:`-separated value the `value` parameter is
the `None` sentinel. -/
theorem scan_command_set_params_present :
    ∀ (s : List Char) (r : Option Unit × List Token),
      scan_command_set s = some r →
      ∃ t, r.2 = [Token.set t, Token.eof]
        ∧ (∃ o, List.lookup "option" t.params = some o)
        ∧ (∃ v, List.lookup "value" t.params = some v)
        ∧ ((∀ c ∈ skipChar ' ' s, c ≠ ':' ∧ c ≠ '=') →
            List.lookup "value" t.params = some none) := by
  intro s r h
  obtain ⟨o, v, hm, hr⟩ := scan_command_set_inv s r h
  refine ⟨TokenSet.make [("option", some o), ("value", v)], by rw [hr],
    ⟨some o, rfl⟩, ⟨v, rfl⟩, fun hns => ?_⟩
  have hv : v = none := setMatch_value_none (skipChar ' ' s) o v
    (fun c hc => isSepChar_false_of c (hns c hc).1 (hns c hc).2) hm
  rw [hv]
  rfl

/-- Witness for C4, on `:set nu`. -/
theorem scan_command_set_params_present_witness :
    ∃ t, ((none : Option Unit),
        [Token.set (TokenSet.make [("option", some "nu".data), ("value", none)]),
          Token.eof]).2 = [Token.set t, Token.eof]
      ∧ (∃ o, List.lookup "option" t.params = some o)
      ∧ (∃ v, List.lookup "value" t.params = some v)
      ∧ ((∀ c ∈ skipChar ' ' "nu".data, c ≠ ':' ∧ c ≠ '=') →
          List.lookup "value" t.params = some none) :=
  scan_command_set_params_present "nu".data _ rfl

/-- C5: whenever `scan_command_set` succeeds it returns the pair
`(None, tokens)` where `tokens` is exactly `[TokenSet, TokenEof]`, the
`TokenSet` carrying the command identifier `set` and the target editor
command `ex_set`. -/
theorem scan_command_set_result_shape :
    ∀ (s : List Char) (r : Option Unit × List Token),
      scan_command_set s = some r →
      r.1 = none ∧ ∃ t, r.2 = [Token.set t, Token.eof]
        ∧ t.content = "set" ∧ t.target_command = "ex_set" := by
  intro s r h
  obtain ⟨o, v, _, hr⟩ := scan_command_set_inv s r h
  subst hr
  exact ⟨rfl, TokenSet.make [("option", some o), ("value", v)], rfl, rfl, rfl⟩

/-- Witness for C5, on `:set nu`. -/
theorem scan_command_set_result_shape_witness :
    ((none : Option Unit),
        [Token.set (TokenSet.make [("option", some "nu".data), ("value", none)]),
          Token.eof]).1 = none
    ∧ ∃ t, ((none : Option Unit),
        [Token.set (TokenSet.make [("option", some "nu".data), ("value", none)]),
          Token.eof]).2 = [Token.set t, Token.eof]
      ∧ t.content = "set" ∧ t.target_command = "ex_set" :=
  scan_command_set_result_shape "nu".data _ rfl

/-- C8: `scan_command_set` fails (the `expect_match` raises) whenever the
remainder after skipping leading spaces is empty, and on every success the
`option` parameter is a non-empty string, never `None`. -/
theorem scan_command_set_nonempty_option :
    (∀ s : List Char, skipChar ' ' s = [] → scan_command_set s = none)
    ∧ (∀ (s : List Char) (r : Option Unit × List Token),
        scan_command_set s = some r →
        ∃ t o, r.2 = [Token.set t, Token.eof]
          ∧ List.lookup "option" t.params = some (some o) ∧ o ≠ []) := by
  constructor
  · intro s hs
    simp [scan_command_set, hs, setMatch]
  · intro s r h
    obtain ⟨o, v, hm, hr⟩ := scan_command_set_inv s r h
    exact ⟨TokenSet.make [("option", some o), ("value", v)], o, by rw [hr], rfl,
      setMatch_opt_ne_nil (skipChar ' ' s) o v hm⟩

/-- Witness for C8: all spaces fails; `:set nu` succeeds with option `nu`. -/
theorem scan_command_set_nonempty_option_witness :
    scan_command_set "   ".data = none
    ∧ ∃ t o, ((none : Option Unit),
        [Token.set (TokenSet.make [("option", some "nu".data), ("value", none)]),
          Token.eof]).2 = [Token.set t, Token.eof]
      ∧ List.lookup "option" t.params = some (some o) ∧ o ≠ [] :=
  ⟨scan_command_set_nonempty_option.1 "   ".data (by decide),
    scan_command_set_nonempty_option.2 "nu".data _ rfl⟩

/-- C9: for an input of the form `opt=` or `opt:` (a separator followed by
nothing), the trailing separator is not stripped: the option is the entire
text including the final separator and the value is the `None` sentinel. -/
theorem scan_command_set_trailing_sep_kept :
    ∀ (s opt : List Char) (sep : Char),
      (sep = ':' ∨ sep = '=') →
      (∀ c ∈ opt, c ≠ ':' ∧ c ≠ '=' ∧ c ≠ '\n') →
      skipChar ' ' s = opt ++ [sep] →
      ∃ t, scan_command_set s = some (none, [Token.set t, Token.eof])
        ∧ List.lookup "option" t.params = some (some (opt ++ [sep]))
        ∧ List.lookup "value" t.params = some none := by
  intro s opt sep hsep hoptc hs
  have hoptc' : ∀ c ∈ opt, isSepChar c = false ∧ c ≠ '\n' := fun c hc =>
    ⟨isSepChar_false_of c (hoptc c hc).1 (hoptc c hc).2.1, (hoptc c hc).2.2⟩
  have hm : setMatch (skipChar ' ' s) = some (opt ++ [sep], none) := by
    rw [hs]
    exact setMatch_trailing_sep opt sep (isSepChar_true_of sep hsep) hoptc'
  exact ⟨TokenSet.make [("option", some (opt ++ [sep])), ("value", none)],
    scan_command_set_of_match s (opt ++ [sep]) none hm, rfl, rfl⟩

/-- Witness for C9, on `:set wrap=`. -/
theorem scan_command_set_trailing_sep_kept_witness :
    ∃ t, scan_command_set " wrap=".data = some (none, [Token.set t, Token.eof])
      ∧ List.lookup "option" t.params = some (some "wrap=".data)
      ∧ List.lookup "value" t.params = some none := by
  have h := scan_command_set_trailing_sep_kept " wrap=".data "wrap".data '='
    (Or.inr rfl) (by decide) (by decide)
  simpa using h

/-! ### The claims about `_update_ignored_packages` -/

theorem conflict_packages_of_eq_nil (ignored : List String)
    (h6 : "Six" ∈ ignored) (hv : "Vintage" ∈ ignored) (hvs : "Vintageous" ∈ ignored) :
    conflict_packages_of ignored = [] := by
  simp [conflict_packages_of, h6, hv, hvs]

theorem update_ignored_packages_of_conflict (ignored : List String)
    (hc : conflict_packages_of ignored ≠ []) :
    update_ignored_packages ignored
      = ⟨List.insertionSort (fun a b => a ≤ b) (ignored ++ conflict_packages_of ignored),
          true, true⟩ := by
  simp [update_ignored_packages, hc]

theorem mem_update_of_candidate (ignored : List String)
    (hc : conflict_packages_of ignored ≠ []) (x : String)
    (hx : x = "Six" ∨ x = "Vintage" ∨ x = "Vintageous") :
    x ∈ (update_ignored_packages ignored).ignored_packages := by
  rw [update_ignored_packages_of_conflict ignored hc]
  rw [(List.perm_insertionSort (fun a b => a ≤ b)
    (ignored ++ conflict_packages_of ignored)).mem_iff]
  by_cases hxi : x ∈ ignored
  · exact List.mem_append_left _ hxi
  · refine List.mem_append_right _ (List.mem_filter.mpr ⟨?_, ?_⟩)
    · rcases hx with h | h | h <;> simp [h]
    · simp [hxi]

/-- C6 counterexample: when all three conflict packages are already
ignored, `_update_ignored_packages` leaves the list exactly as it found
it, so an initially unsorted list stays unsorted — the claim that the
stored list is sorted after every run fails. -/
theorem update_ignored_packages_not_always_sorted :
    (update_ignored_packages ["Vintageous", "Six", "Vintage"]).ignored_packages
      = ["Vintageous", "Six", "Vintage"]
    ∧ ¬ List.Sorted (fun a b : String => a ≤ b)
        (update_ignored_packages ["Vintageous", "Six", "Vintage"]).ignored_packages := by
  have h : (update_ignored_packages ["Vintageous", "Six", "Vintage"]).ignored_packages
      = ["Vintageous", "Six", "Vintage"] := rfl
  refine ⟨h, ?_⟩
  rw [h]
  intro hs
  rw [List.sorted_cons] at hs
  have hle := hs.1 "Six" (by simp)
  rw [String.le_iff_toList_le] at hle
  exact absurd hle (by decide)

/-- C6 as amended: after `_update_ignored_packages` runs, the stored
`ignored_packages` list contains all of `Six`, `Vintage` and `Vintageous`
and every element of the initial list; and whenever at least one of the
three was missing initially, the stored list is sorted and the settings
file is saved. (As found, the list is unchanged — hence possibly
unsorted — when all three are already present.) -/
theorem update_ignored_packages_conflict_resolution (ignored : List String) :
    "Six" ∈ (update_ignored_packages ignored).ignored_packages
    ∧ "Vintage" ∈ (update_ignored_packages ignored).ignored_packages
    ∧ "Vintageous" ∈ (update_ignored_packages ignored).ignored_packages
    ∧ (∀ p ∈ ignored, p ∈ (update_ignored_packages ignored).ignored_packages)
    ∧ (("Six" ∉ ignored ∨ "Vintage" ∉ ignored ∨ "Vintageous" ∉ ignored) →
        List.Sorted (fun a b : String => a ≤ b)
          (update_ignored_packages ignored).ignored_packages
        ∧ (update_ignored_packages ignored).saved = true) := by
  by_cases hc : conflict_packages_of ignored = []
  · have hall := List.filter_eq_nil_iff.mp hc
    have h6 : "Six" ∈ ignored := by simpa using hall "Six" (by simp)
    have hv : "Vintage" ∈ ignored := by simpa using hall "Vintage" (by simp)
    have hvs : "Vintageous" ∈ ignored := by simpa using hall "Vintageous" (by simp)
    have hr : update_ignored_packages ignored = ⟨ignored, false, false⟩ := by
      simp [update_ignored_packages, hc]
    rw [hr]
    exact ⟨h6, hv, hvs, fun p hp => hp,
      fun hmiss => absurd hmiss (by simp [h6, hv, hvs])⟩
  · refine ⟨mem_update_of_candidate ignored hc "Six" (Or.inl rfl),
      mem_update_of_candidate ignored hc "Vintage" (Or.inr (Or.inl rfl)),
      mem_update_of_candidate ignored hc "Vintageous" (Or.inr (Or.inr rfl)),
      fun p hp => ?_, fun _ => ?_⟩
    · rw [update_ignored_packages_of_conflict ignored hc]
      rw [(List.perm_insertionSort (fun a b => a ≤ b)
        (ignored ++ conflict_packages_of ignored)).mem_iff]
      exact List.mem_append_left _ hp
    · rw [update_ignored_packages_of_conflict ignored hc]
      exact ⟨List.sorted_insertionSort (fun a b => a ≤ b)
        (ignored ++ conflict_packages_of ignored), rfl⟩

/-- Witness for the amended C6, starting from an empty ignored list. -/
theorem update_ignored_packages_conflict_resolution_witness :
    "Six" ∈ (update_ignored_packages []).ignored_packages
    ∧ List.Sorted (fun a b : String => a ≤ b)
        (update_ignored_packages []).ignored_packages
    ∧ (update_ignored_packages []).saved = true :=
  ⟨(update_ignored_packages_conflict_resolution []).1,
    ((update_ignored_packages_conflict_resolution []).2.2.2.2 (Or.inl (by simp))).1,
    ((update_ignored_packages_conflict_resolution []).2.2.2.2 (Or.inl (by simp))).2⟩

/-- C10: when `Six`, `Vintage` and `Vintageous` are all already ignored,
`_update_ignored_packages` neither calls `settings.set` nor saves the
settings file, and the stored list is unchanged. -/
theorem update_ignored_packages_noop (ignored : List String)
    (h6 : "Six" ∈ ignored) (hv : "Vintage" ∈ ignored) (hvs : "Vintageous" ∈ ignored) :
    update_ignored_packages ignored = ⟨ignored, false, false⟩ := by
  simp [update_ignored_packages, conflict_packages_of_eq_nil ignored h6 hv hvs]

/-- Witness for C10. -/
theorem update_ignored_packages_noop_witness :
    update_ignored_packages ["Six", "Vintage", "Vintageous"]
      = ⟨["Six", "Vintage", "Vintageous"], false, false⟩ :=
  update_ignored_packages_noop ["Six", "Vintage", "Vintageous"]
    (by simp) (by simp) (by simp)

/-! ### Frame lemmas for the bootstrap steps -/

theorem pcStep_dialogs (h : Host) (w : World) : ((pcStep h w).2).dialogs = w.dialogs := by
  unfold pcStep
  cases hr : pcBlockRaw h with
  | ok ev => rfl
  | error p =>
    obtain ⟨e, ev⟩ := p
    cases e <;> rfl

theorem pcStep_others (h : Host) (w : World) : ((pcStep h w).2).others = w.others := by
  unfold pcStep
  cases hr : pcBlockRaw h with
  | ok ev => rfl
  | error p =>
    obtain ⟨e, ev⟩ := p
    cases e <;> rfl

theorem updateStep_dialogs (h : Host) (w : World) : (updateStep h w).dialogs = w.dialogs := by
  unfold updateStep
  cases h.updateExc <;> rfl

theorem updateStep_others (h : Host) (w : World) : (updateStep h w).others = w.others := by
  unfold updateStep
  cases h.updateExc <;> rfl

theorem initStep_dialogs (h : Host) (w : World) :
    ((initStep h w).2).dialogs = w.dialogs := by
  unfold initStep
  cases w.active
  · rfl
  · cases h.initStateExc <;> rfl

theorem initStep_others (h : Host) (w : World) :
    ((initStep h w).2).others = w.others := by
  unfold initStep
  cases w.active
  · rfl
  · cases h.initStateExc <;> rfl

theorem errorStep_dialogs (h : Host) (exc excInit : Option PyExc)
    (pc_event : Option String) (w : World) :
    (errorStep h exc excInit pc_event w).dialogs
      = w.dialogs ++ [restartMessage
          (decide (exc = some PyExc.importError) || decide (excInit = some PyExc.importError))
          (decide (pc_event = some "post_upgrade"))] := by
  unfold errorStep
  cases h.cleanupExc <;> rfl

theorem errorStep_others (h : Host) (exc excInit : Option PyExc)
    (pc_event : Option String) (w : World) (hc : h.cleanupExc = none) :
    (errorStep h exc excInit pc_event w).others = w.others.map cleanup_view := by
  unfold errorStep
  rw [hc]
  rfl

theorem restartMessage_contains (a b : Bool) : containsRestart (restartMessage a b) := by
  cases a <;> cases b
  · exact ⟨"An error occurred trying to load NeoVintageous. ", ".", rfl⟩
  · exact ⟨"An error occurred trying to upgrade NeoVintageous. ",
      " to finish the upgrade.", rfl⟩
  · exact ⟨"Failed to load some NeoVintageous modules. ", ".", rfl⟩
  · exact ⟨"Failed to load some modules trying to upgrade NeoVintageous. ",
      " to finish the upgrade.", rfl⟩

/-- How `cleanup_view` reads back at each settings key. -/
theorem cleanup_view_apply (v : ViewSettings) (k : String) :
    cleanup_view v k =
      if k = "vintage" then none
      else if k = "inverse_caret_state" then some (SVal.bool false)
      else if k = "command_mode" then some (SVal.bool false)
      else v k := rfl

/-! ### The claims about `plugin_loaded` -/

/-- C7: with every enumerated initialization step allowed to raise
arbitrarily (the `Host` oracle), no exception propagates out of the
module-level import block, `plugin_loaded` or `plugin_unloaded`: each
entry point always evaluates to an `Except.ok` outcome because every step
sits inside a `try`/`except`. -/
theorem plugin_entry_points_total :
    ∀ (h : Host) (exc : Option PyExc) (w : World),
      (∃ p, module_load h w = Except.ok p)
      ∧ (∃ w', plugin_loaded h exc w = Except.ok w')
      ∧ (∃ w', plugin_unloaded h w = Except.ok w') := by
  intro h exc w
  refine ⟨?_, ?_, ?_⟩
  · unfold module_load
    cases h.importExc <;> exact ⟨_, rfl⟩
  · simp only [plugin_loaded]
    split <;> exact ⟨_, rfl⟩
  · unfold plugin_unloaded
    cases h.cleanupExc <;> exact ⟨_, rfl⟩

/-- C2: `plugin_loaded` shows a modal dialog exactly when an exception was
recorded at import time (`_EXCEPTION`) or during view-state initialization
(`_exception`), and every message shown contains the instruction
`Please restart Sublime Text`. -/
theorem plugin_loaded_dialog_iff :
    ∀ (h : Host) (exc : Option PyExc) (w w' : World),
      plugin_loaded h exc w = Except.ok w' →
      ((exc.isSome || (initStep h (updateStep h (pcStep h w).2)).1.isSome) = true →
        ∃ m, w'.dialogs = w.dialogs ++ [m] ∧ containsRestart m)
      ∧ ((exc.isSome || (initStep h (updateStep h (pcStep h w).2)).1.isSome) = false →
        w'.dialogs = w.dialogs) := by
  intro h exc w w' hw
  simp only [plugin_loaded] at hw
  constructor
  · intro hcond
    rw [if_pos hcond] at hw
    have hw' : errorStep h exc (initStep h (updateStep h (pcStep h w).2)).1
        (pcStep h w).1 (initStep h (updateStep h (pcStep h w).2)).2 = w' := by
      exact Except.ok.inj hw
    refine ⟨restartMessage
        (decide (exc = some PyExc.importError)
          || decide ((initStep h (updateStep h (pcStep h w).2)).1 = some PyExc.importError))
        (decide ((pcStep h w).1 = some "post_upgrade")), ?_, restartMessage_contains _ _⟩
    rw [← hw', errorStep_dialogs, initStep_dialogs, updateStep_dialogs, pcStep_dialogs]
  · intro hcond
    rw [if_neg (by simp [hcond])] at hw
    have hw' : (initStep h (updateStep h (pcStep h w).2)).2 = w' := Except.ok.inj hw
    rw [← hw', initStep_dialogs, updateStep_dialogs, pcStep_dialogs]

/-- A view whose `command_mode` setting is `True`. -/
def v0 : ViewSettings := fun k => if k = "command_mode" then some (SVal.bool true) else none

/-- A host on which every initialization step succeeds. -/
def hBenign : Host :=
  ⟨none, none, Except.ok false, Except.ok false, none, none, id, none⟩

/-- A world with one (non-active) view in `command_mode`, no active view,
and all conflict packages already ignored. -/
def wView : World := ⟨none, [v0], ["Six", "Vintage", "Vintageous"], 0, [], 0⟩

/-- The world `plugin_loaded` produces from `wView` when `_EXCEPTION` is a
non-import error. -/
def wViewAfter : World :=
  ⟨none, [cleanup_view v0], ["Six", "Vintage", "Vintageous"], 0,
    ["An error occurred trying to load NeoVintageous. Please restart Sublime Text."], 0⟩

/-- The `command_mode` settings of the non-active views of a world. -/
def cmdModes (w : World) : List (Option SVal) := w.others.map (fun v => v "command_mode")

/-- Witness for C2: with `_EXCEPTION` recorded, the dialog appears with a
restart instruction. -/
theorem plugin_loaded_dialog_iff_witness :
    ∃ m, wViewAfter.dialogs = wView.dialogs ++ [m] ∧ containsRestart m :=
  (plugin_loaded_dialog_iff hBenign (some PyExc.otherError) wView wViewAfter rfl).1 rfl

/-- C3 counterexample: on the error path the bootstrap does not leave
per-view settings unchanged — a view whose `command_mode` was `True`
before `plugin_loaded` has it `False` afterwards. -/
theorem plugin_loaded_error_path_changes_settings :
    plugin_loaded hBenign (some PyExc.otherError) wView = Except.ok wViewAfter
    ∧ cmdModes wViewAfter = [some (SVal.bool false)]
    ∧ cmdModes wView = [some (SVal.bool true)] :=
  ⟨rfl, rfl, rfl⟩

/-- C3 as amended: on the error path the only recovery beyond printing a
traceback and showing the dialog is `_cleanup_views`: every non-active
view's settings become exactly the cleaned settings, where cleaning sets
`command_mode` and `inverse_caret_state` to `False`, erases `vintage`, and
leaves every other settings key unchanged. -/
theorem plugin_loaded_error_path_cleanup (h : Host) (exc : Option PyExc) (w w' : World)
    (hc : h.cleanupExc = none)
    (hcond : (exc.isSome || (initStep h (updateStep h (pcStep h w).2)).1.isSome) = true)
    (hw : plugin_loaded h exc w = Except.ok w') :
    w'.others = w.others.map cleanup_view
    ∧ (∀ v : ViewSettings,
        cleanup_view v "command_mode" = some (SVal.bool false)
        ∧ cleanup_view v "inverse_caret_state" = some (SVal.bool false)
        ∧ cleanup_view v "vintage" = none
        ∧ ∀ k, k ≠ "command_mode" → k ≠ "inverse_caret_state" → k ≠ "vintage" →
            cleanup_view v k = v k) := by
  simp only [plugin_loaded] at hw
  rw [if_pos hcond] at hw
  have hw' : errorStep h exc (initStep h (updateStep h (pcStep h w).2)).1
      (pcStep h w).1 (initStep h (updateStep h (pcStep h w).2)).2 = w' :=
    Except.ok.inj hw
  constructor
  · rw [← hw', errorStep_others _ _ _ _ _ hc, initStep_others, updateStep_others,
      pcStep_others]
  · intro v
    refine ⟨?_, ?_, ?_, ?_⟩
    · rw [cleanup_view_apply, if_neg (by decide), if_neg (by decide), if_pos rfl]
    · rw [cleanup_view_apply, if_neg (by decide), if_pos rfl]
    · rw [cleanup_view_apply, if_pos rfl]
    · intro k h1 h2 h3
      rw [cleanup_view_apply, if_neg h3, if_neg h2, if_neg h1]

/-- Witness for the amended C3, on `wView`. -/
theorem plugin_loaded_error_path_cleanup_witness :
    wViewAfter.others = wView.others.map cleanup_view
    ∧ cleanup_view v0 "command_mode" = some (SVal.bool false)
    ∧ cleanup_view v0 "vintage" = none
    ∧ cleanup_view v0 "wrap_width" = v0 "wrap_width" :=
  ⟨(plugin_loaded_error_path_cleanup hBenign (some PyExc.otherError) wView wViewAfter
      rfl rfl rfl).1,
    ((plugin_loaded_error_path_cleanup hBenign (some PyExc.otherError) wView wViewAfter
      rfl rfl rfl).2 v0).1,
    ((plugin_loaded_error_path_cleanup hBenign (some PyExc.otherError) wView wViewAfter
      rfl rfl rfl).2 v0).2.2.1,
    ((plugin_loaded_error_path_cleanup hBenign (some PyExc.otherError) wView wViewAfter
      rfl rfl rfl).2 v0).2.2.2 "wrap_width" (by decide) (by decide) (by decide)⟩

end NeoVintageous
